import Mathlib

/-!
Verification of the groovy-mister client library specification.

The repository ships only the public C header (src/include/groovy_mister.h);
the behavior of the library is fixed by the specification document.  The
definitions below are therefore a shallow embedding modelled from the spec:
bytes are naturals below 256, byte sequences are lists, multi-byte wire
fields are little-endian, and every fallible operation returns an Option.
-/

namespace GroovyMister

/-! ## Byte-level helpers (little-endian wire fields) -/

/-- Modelled from the spec: the wire codec implementation is not under src/
(the header declares only the C ABI).  The spec fixes all multi-byte wire
fields as little-endian; this encodes a natural number into k bytes. -/
def leBytes : Nat → Nat → List Nat
  | 0, _ => []
  | k + 1, n => n % 256 :: leBytes k (n / 256)

/-- Modelled from the spec: little-endian decoding of a byte list. -/
def deLE : List Nat → Nat
  | [] => 0
  | b :: bs => b + 256 * deLE bs

theorem leBytes_length (k n : Nat) : (leBytes k n).length = k := by
  induction k generalizing n with
  | zero => rfl
  | succ k ih => simp [leBytes, ih]

theorem deLE_leBytes (k n : Nat) (h : n < 256 ^ k) : deLE (leBytes k n) = n := by
  induction k generalizing n with
  | zero =>
    simp [pow_zero] at h
    simp [leBytes, deLE, h]
  | succ k ih =>
    have hdiv : n / 256 < 256 ^ k := by
      rw [Nat.div_lt_iff_lt_mul (by norm_num : 0 < 256)]
      calc n < 256 ^ (k + 1) := h
        _ = 256 ^ k * 256 := by ring
    simp [leBytes, deLE, ih (n / 256) hdiv, Nat.mod_add_div]

theorem leBytes_deLE (bs : List Nat) (hb : ∀ b ∈ bs, b < 256) :
    leBytes bs.length (deLE bs) = bs := by
  induction bs with
  | nil => rfl
  | cons b bs ih =>
    have hblt : b < 256 := hb b (List.mem_cons_self b bs)
    have hmod : (b + 256 * deLE bs) % 256 = b := by
      rw [Nat.add_mul_mod_self_left, Nat.mod_eq_of_lt hblt]
    have hdivv : (b + 256 * deLE bs) / 256 = deLE bs := by
      rw [Nat.add_mul_div_left _ _ (by norm_num : 0 < 256),
        Nat.div_eq_of_lt hblt, Nat.zero_add]
    simp only [List.length_cons, leBytes, deLE, hmod, hdivv]
    rw [ih (fun x hx => hb x (List.mem_cons_of_mem b hx))]

theorem take_leBytes_append (k n : Nat) (t : List Nat) :
    (leBytes k n ++ t).take k = leBytes k n :=
  List.take_left' (leBytes_length k n)

theorem drop_leBytes_append (k n : Nat) (t : List Nat) :
    (leBytes k n ++ t).drop k = t :=
  List.drop_left' (leBytes_length k n)

theorem take_leBytes_self (k n : Nat) : (leBytes k n).take k = leBytes k n := by
  have h : (leBytes k n ++ ([] : List Nat)).take k = leBytes k n :=
    take_leBytes_append k n []
  simpa using h

theorem deLE_leBytes_append_take (k n : Nat) (t : List Nat) (h : n < 256 ^ k) :
    deLE ((leBytes k n ++ t).take k) = n := by
  rw [take_leBytes_append, deLE_leBytes k n h]

/-! ## ACK snapshot and its 41-byte wire codec -/

/-- Modelled from the spec: the ACK snapshot maintained by the ACK tracker
(section 4.5 and the status struct of the header), fields as in the
41-byte ACK datagram layout of section 6. -/
structure Ack where
  frame : Nat
  frame_echo : Nat
  vcount : Nat
  vcount_echo : Nat
  vram_ready : Nat
  vram_end_frame : Nat
  vram_synced : Nat
  vga_frameskip : Nat
  vga_vblank : Nat
  vga_f1 : Nat
  audio_active : Nat
  vram_queue : Nat
deriving DecidableEq, Repr

/-- Modelled from the spec: decode the fixed 41-byte ACK datagram
(offsets of section 6); any other length is dropped. -/
def decodeAck (l : List Nat) : Option Ack :=
  if l.length = 41 then
    some {
      frame := deLE (l.take 4)
      frame_echo := deLE ((l.drop 4).take 4)
      vcount := deLE ((l.drop 8).take 2)
      vcount_echo := deLE ((l.drop 10).take 2)
      vram_ready := deLE ((l.drop 12).take 1)
      vram_end_frame := deLE ((l.drop 13).take 1)
      vram_synced := deLE ((l.drop 14).take 1)
      vga_frameskip := deLE ((l.drop 15).take 1)
      vga_vblank := deLE ((l.drop 16).take 1)
      vga_f1 := deLE ((l.drop 17).take 1)
      audio_active := deLE ((l.drop 18).take 1)
      vram_queue := deLE ((l.drop 19).take 1) }
  else none

/-- Modelled from the spec: encode an ACK snapshot back to the 41-byte wire
layout; bytes 20 to 40 are the reserved tail, zero in the current version. -/
def encodeAck (a : Ack) : List Nat :=
  leBytes 4 a.frame ++ (leBytes 4 a.frame_echo ++ (leBytes 2 a.vcount ++
    (leBytes 2 a.vcount_echo ++ (leBytes 1 a.vram_ready ++
    (leBytes 1 a.vram_end_frame ++ (leBytes 1 a.vram_synced ++
    (leBytes 1 a.vga_frameskip ++ (leBytes 1 a.vga_vblank ++
    (leBytes 1 a.vga_f1 ++ (leBytes 1 a.audio_active ++
    (leBytes 1 a.vram_queue ++ List.replicate 21 0)))))))))))

/-- A well-formed ACK datagram: exactly 41 bytes, every entry a byte, and
the reserved tail (offsets 20 to 40, ignored by the decoder) zero in the
current protocol version. -/
def wellFormedAck (l : List Nat) : Prop :=
  l.length = 41 ∧ (∀ b ∈ l, b < 256) ∧ l.drop 20 = List.replicate 21 0

instance (l : List Nat) : Decidable (wellFormedAck l) := by
  unfold wellFormedAck; infer_instance

theorem drop_leBytes_append_of_le (k n : Nat) (t : List Nat) (j : Nat) (h : k ≤ j) :
    (leBytes k n ++ t).drop j = t.drop (j - k) := by
  obtain ⟨m, rfl⟩ : ∃ m, j = k + m := ⟨j - k, by omega⟩
  rw [← List.drop_drop, drop_leBytes_append, Nat.add_sub_cancel_left]

theorem leBytes_deLE_take (k : Nat) (w : List Nat) (hk : k ≤ w.length)
    (hb : ∀ b ∈ w, b < 256) : leBytes k (deLE (w.take k)) = w.take k := by
  have hlen : (w.take k).length = k := by
    simp only [List.length_take]
    omega
  have hbt : ∀ b ∈ w.take k, b < 256 := fun b hbm => hb b (List.take_subset k w hbm)
  have h := leBytes_deLE (w.take k) hbt
  rwa [hlen] at h

/-- Re-encoding the decoded fields of a well-formed 41-byte ACK datagram
reproduces the datagram. -/
theorem encodeAck_decodeAck (l : List Nat) (h : wellFormedAck l) :
    (decodeAck l).map encodeAck = some l := by
  obtain ⟨h41, hb, hres⟩ := h
  have hd : ∀ j : Nat, ∀ b ∈ l.drop j, b < 256 :=
    fun j b hbm => hb b (List.drop_subset j l hbm)
  have hL : ∀ j : Nat, (l.drop j).length = 41 - j := by
    intro j
    simp [List.length_drop, h41]
  have r0 : leBytes 4 (deLE (l.take 4)) = l.take 4 :=
    leBytes_deLE_take 4 l (by omega) hb
  have r4 : leBytes 4 (deLE ((l.drop 4).take 4)) = (l.drop 4).take 4 :=
    leBytes_deLE_take 4 (l.drop 4) (by rw [hL]; omega) (hd 4)
  have r8 : leBytes 2 (deLE ((l.drop 8).take 2)) = (l.drop 8).take 2 :=
    leBytes_deLE_take 2 (l.drop 8) (by rw [hL]; omega) (hd 8)
  have r10 : leBytes 2 (deLE ((l.drop 10).take 2)) = (l.drop 10).take 2 :=
    leBytes_deLE_take 2 (l.drop 10) (by rw [hL]; omega) (hd 10)
  have r12 : leBytes 1 (deLE ((l.drop 12).take 1)) = (l.drop 12).take 1 :=
    leBytes_deLE_take 1 (l.drop 12) (by rw [hL]; omega) (hd 12)
  have r13 : leBytes 1 (deLE ((l.drop 13).take 1)) = (l.drop 13).take 1 :=
    leBytes_deLE_take 1 (l.drop 13) (by rw [hL]; omega) (hd 13)
  have r14 : leBytes 1 (deLE ((l.drop 14).take 1)) = (l.drop 14).take 1 :=
    leBytes_deLE_take 1 (l.drop 14) (by rw [hL]; omega) (hd 14)
  have r15 : leBytes 1 (deLE ((l.drop 15).take 1)) = (l.drop 15).take 1 :=
    leBytes_deLE_take 1 (l.drop 15) (by rw [hL]; omega) (hd 15)
  have r16 : leBytes 1 (deLE ((l.drop 16).take 1)) = (l.drop 16).take 1 :=
    leBytes_deLE_take 1 (l.drop 16) (by rw [hL]; omega) (hd 16)
  have r17 : leBytes 1 (deLE ((l.drop 17).take 1)) = (l.drop 17).take 1 :=
    leBytes_deLE_take 1 (l.drop 17) (by rw [hL]; omega) (hd 17)
  have r18 : leBytes 1 (deLE ((l.drop 18).take 1)) = (l.drop 18).take 1 :=
    leBytes_deLE_take 1 (l.drop 18) (by rw [hL]; omega) (hd 18)
  have r19 : leBytes 1 (deLE ((l.drop 19).take 1)) = (l.drop 19).take 1 :=
    leBytes_deLE_take 1 (l.drop 19) (by rw [hL]; omega) (hd 19)
  have glue : ∀ j k m : Nat, j + k = m → (l.drop j).take k ++ l.drop m = l.drop j := by
    intro j k m hm
    subst hm
    exact List.drop_take_append_drop l j k
  simp only [decodeAck, h41, if_true, Option.map_some']
  rw [encodeAck]
  simp only [r0, r4, r8, r10, r12, r13, r14, r15, r16, r17, r18, r19]
  rw [← hres, glue 19 1 20 rfl, glue 18 1 19 rfl, glue 17 1 18 rfl, glue 16 1 17 rfl,
    glue 15 1 16 rfl, glue 14 1 15 rfl, glue 13 1 14 rfl, glue 12 1 13 rfl,
    glue 10 2 12 rfl, glue 8 2 10 rfl, glue 4 4 8 rfl, List.take_append_drop]

/-! ## Commands and their wire codec -/

/-- Modelled from the spec: the command set of the wire codec (section 4.1).
The SWITCHRES pixel clock travels as eight wire bytes (an f64); the codec
only copies those bytes, so the model carries the 64-bit pattern as a
natural number below 2 to the 64. BLIT and AUDIO carry their chunked
payload bytes after the fixed header. -/
inductive Cmd where
  | init (mtu rgb_mode sound_rate sound_channels lz4_mode : Nat)
  | switchres (pixel_clock_bits h_active h_begin h_end h_total
      v_active v_begin v_end v_total interlaced : Nat)
  | blit (frame vsync_line lz4_size fld : Nat) (payload : List Nat)
  | audio (sample_bytes : Nat) (payload : List Nat)
  | close
deriving DecidableEq, Repr

/-- Modelled from the spec: encode a command to its little-endian wire
layout, id byte first (table of section 4.1). -/
def encodeCmd : Cmd → List Nat
  | .init mtu rgb rate chan lz4 =>
      1 :: (leBytes 2 mtu ++ (leBytes 1 rgb ++ (leBytes 1 rate ++
        (leBytes 1 chan ++ leBytes 1 lz4))))
  | .switchres p ha hb he ht va vb ve vt i =>
      2 :: (leBytes 8 p ++ (leBytes 2 ha ++ (leBytes 2 hb ++ (leBytes 2 he ++
        (leBytes 2 ht ++ (leBytes 2 va ++ (leBytes 2 vb ++ (leBytes 2 ve ++
        (leBytes 2 vt ++ leBytes 1 i)))))))))
  | .blit f v s fd payload =>
      3 :: (leBytes 4 f ++ (leBytes 2 v ++ (leBytes 4 s ++ (leBytes 1 fd ++ payload))))
  | .audio n payload => 4 :: (leBytes 4 n ++ payload)
  | .close => [5]

/-- Modelled from the spec: decode a datagram into a command; an unknown
id byte or a truncated payload is dropped (section 4.1). -/
def decodeCmd : List Nat → Option Cmd
  | 1 :: rest =>
      if rest.length = 6 then
        some (.init (deLE (rest.take 2)) (deLE ((rest.drop 2).take 1))
          (deLE ((rest.drop 3).take 1)) (deLE ((rest.drop 4).take 1))
          (deLE ((rest.drop 5).take 1)))
      else none
  | 2 :: rest =>
      if rest.length = 25 then
        some (.switchres (deLE (rest.take 8)) (deLE ((rest.drop 8).take 2))
          (deLE ((rest.drop 10).take 2)) (deLE ((rest.drop 12).take 2))
          (deLE ((rest.drop 14).take 2)) (deLE ((rest.drop 16).take 2))
          (deLE ((rest.drop 18).take 2)) (deLE ((rest.drop 20).take 2))
          (deLE ((rest.drop 22).take 2)) (deLE ((rest.drop 24).take 1)))
      else none
  | 3 :: rest =>
      if 11 ≤ rest.length then
        some (.blit (deLE (rest.take 4)) (deLE ((rest.drop 4).take 2))
          (deLE ((rest.drop 6).take 4)) (deLE ((rest.drop 10).take 1)) (rest.drop 11))
      else none
  | 4 :: rest =>
      if 4 ≤ rest.length then some (.audio (deLE (rest.take 4)) (rest.drop 4)) else none
  | [5] => some .close
  | _ => none

/-- Field ranges of a command as fixed by the wire widths of section 4.1. -/
def wfCmd : Cmd → Bool
  | .init mtu rgb rate chan lz4 =>
      decide (mtu < 2 ^ 16) && decide (rgb < 2 ^ 8) && decide (rate < 2 ^ 8) &&
        decide (chan < 2 ^ 8) && decide (lz4 < 2 ^ 8)
  | .switchres p ha hb he ht va vb ve vt i =>
      decide (p < 2 ^ 64) && decide (ha < 2 ^ 16) && decide (hb < 2 ^ 16) &&
        decide (he < 2 ^ 16) && decide (ht < 2 ^ 16) && decide (va < 2 ^ 16) &&
        decide (vb < 2 ^ 16) && decide (ve < 2 ^ 16) && decide (vt < 2 ^ 16) &&
        decide (i < 2 ^ 8)
  | .blit f v s fd _ =>
      decide (f < 2 ^ 32) && decide (v < 2 ^ 16) && decide (s < 2 ^ 32) &&
        decide (fd < 2 ^ 8)
  | .audio n _ => decide (n < 2 ^ 32)
  | .close => true

theorem deLE_leBytes1 (n : Nat) (h : n < 2 ^ 8) : deLE (leBytes 1 n) = n :=
  deLE_leBytes 1 n (lt_of_lt_of_le h (by norm_num))

theorem deLE_leBytes2 (n : Nat) (h : n < 2 ^ 16) : deLE (leBytes 2 n) = n :=
  deLE_leBytes 2 n (lt_of_lt_of_le h (by norm_num))

theorem deLE_leBytes4 (n : Nat) (h : n < 2 ^ 32) : deLE (leBytes 4 n) = n :=
  deLE_leBytes 4 n (lt_of_lt_of_le h (by norm_num))

theorem deLE_leBytes8 (n : Nat) (h : n < 2 ^ 64) : deLE (leBytes 8 n) = n :=
  deLE_leBytes 8 n (lt_of_lt_of_le h (by norm_num))

/-- Decoding the encoding of any in-range command gives the command back. -/
theorem decodeCmd_encodeCmd (c : Cmd) (h : wfCmd c = true) :
    decodeCmd (encodeCmd c) = some c := by
  cases c with
  | init mtu rgb rate chan lz4 =>
    simp only [wfCmd, Bool.and_eq_true, decide_eq_true_eq] at h
    obtain ⟨⟨⟨⟨h1, h2⟩, h3⟩, h4⟩, h5⟩ := h
    simp [encodeCmd, decodeCmd, List.length_append, leBytes_length,
      take_leBytes_append, drop_leBytes_append_of_le, take_leBytes_self,
      deLE_leBytes1, deLE_leBytes2, h1, h2, h3, h4, h5]
    exact ⟨deLE_leBytes2 mtu h1, deLE_leBytes1 rgb h2, deLE_leBytes1 rate h3,
      deLE_leBytes1 chan h4, deLE_leBytes1 lz4 h5⟩
  | switchres p ha hb he ht va vb ve vt i =>
    simp only [wfCmd, Bool.and_eq_true, decide_eq_true_eq] at h
    obtain ⟨⟨⟨⟨⟨⟨⟨⟨⟨h1, h2⟩, h3⟩, h4⟩, h5⟩, h6⟩, h7⟩, h8⟩, h9⟩, h10⟩ := h
    simp [encodeCmd, decodeCmd, List.length_append, leBytes_length,
      take_leBytes_append, drop_leBytes_append_of_le, take_leBytes_self,
      deLE_leBytes1, deLE_leBytes2, deLE_leBytes8,
      h1, h2, h3, h4, h5, h6, h7, h8, h9, h10]
    exact ⟨deLE_leBytes8 p h1, deLE_leBytes2 ha h2, deLE_leBytes2 hb h3,
      deLE_leBytes2 he h4, deLE_leBytes2 ht h5, deLE_leBytes2 va h6,
      deLE_leBytes2 vb h7, deLE_leBytes2 ve h8, deLE_leBytes2 vt h9,
      deLE_leBytes1 i h10⟩
  | blit f v s fd payload =>
    simp only [wfCmd, Bool.and_eq_true, decide_eq_true_eq] at h
    obtain ⟨⟨⟨h1, h2⟩, h3⟩, h4⟩ := h
    have hlen : 11 ≤ 4 + (2 + (4 + (1 + payload.length))) := by omega
    simp [encodeCmd, decodeCmd, List.length_append, leBytes_length,
      take_leBytes_append, drop_leBytes_append_of_le, take_leBytes_self,
      deLE_leBytes1, deLE_leBytes2, deLE_leBytes4, hlen, h1, h2, h3, h4]
    exact ⟨deLE_leBytes4 f h1, deLE_leBytes2 v h2, deLE_leBytes4 s h3, deLE_leBytes1 fd h4⟩
  | audio n payload =>
    simp only [wfCmd, decide_eq_true_eq] at h
    have hlen : 4 ≤ 4 + payload.length := by omega
    simp [encodeCmd, decodeCmd, List.length_append, leBytes_length,
      take_leBytes_append, drop_leBytes_append_of_le, deLE_leBytes4, hlen, h]
    exact deLE_leBytes4 n h
  | close => rfl

/-! ## Compressor (LZ4 modes, delta buffer, adaptive choice) -/

/-- Count the leading run of a byte, returning the run length in the rest of
the list and the remainder. -/
def countRun (b : Nat) : List Nat → Nat × List Nat
  | [] => (0, [])
  | x :: xs => if x = b then ((countRun b xs).1 + 1, (countRun b xs).2) else (0, x :: xs)

theorem countRun_snd_length (b : Nat) (xs : List Nat) :
    (countRun b xs).2.length ≤ xs.length := by
  induction xs with
  | nil => simp [countRun]
  | cons x xs ih =>
    by_cases hx : x = b
    · simp only [countRun, if_pos hx]
      exact le_trans ih (Nat.le_succ _)
    · simp [countRun, if_neg hx]

/-- Simple run-length body used by the model block compressor: pairs of run
length and byte value. -/
def rle : List Nat → List Nat
  | [] => []
  | b :: xs =>
    have h : (countRun b xs).2.length < (b :: xs).length :=
      Nat.lt_succ_of_le (countRun_snd_length b xs)
    ((countRun b xs).1 + 1) :: b :: rle (countRun b xs).2
termination_by l => l.length

/-- Modelled from the spec: the LZ4 block encoder itself is not in src/ (the
spec names LZ4 and LZ4-HC as external block formats).  The model keeps the
two properties the spec relies on: a block too small to contain a match
(at most 16 bytes) is emitted as a literal run with one byte of overhead
and therefore never shrinks, while larger inputs go through a
run-length body that does shrink on repetitive frames. -/
def lz4_compress (l : List Nat) : List Nat :=
  if l.length ≤ 16 then 0 :: l else 1 :: rle l

/-- Modelled from the spec: the delta modes XOR the raw frame against the
previously transmitted frame, a zero buffer standing in where the previous
frame is shorter or absent (section 4.3). -/
def deltaXor : List Nat → List Nat → List Nat
  | [], _ => []
  | r :: rs, [] => r :: deltaXor rs []
  | r :: rs, p :: ps => (r ^^^ p) :: deltaXor rs ps

theorem deltaXor_length (raw prev : List Nat) :
    (deltaXor raw prev).length = raw.length := by
  induction raw generalizing prev with
  | nil => simp [deltaXor]
  | cons r rs ih =>
    cases prev with
    | nil => simp [deltaXor, ih]
    | cons p ps => simp [deltaXor, ih]

/-- Modelled from the spec: the speculative compression of the adaptive
modes; adaptive-delta falls back to the non-delta block on frames where
the XOR blow-up makes the delta compress worse than the raw frame. -/
def speculative (mode : Nat) (prev raw : List Nat) : List Nat :=
  if mode = 6 then
    if (lz4_compress raw).length < (lz4_compress (deltaXor raw prev)).length then
      lz4_compress raw
    else lz4_compress (deltaXor raw prev)
  else lz4_compress raw

/-- Modelled from the spec: the adaptive decision rule of section 4.3.  The
payload is transmitted uncompressed with lz4 size zero when the compressed
size is at least fifteen sixteenths of the raw size, compressed otherwise. -/
def adaptiveChoose (c raw : List Nat) : List Nat × Nat :=
  if 15 * raw.length ≤ 16 * c.length then (raw, 0) else (c, c.length)

/-- Modelled from the spec: the compression stage of submit, returning the
transmitted payload and the lz4 size field of the BLIT header (zero when
the payload travels uncompressed), for each of the seven lz4 modes. -/
def compressStage (mode : Nat) (prev raw : List Nat) : List Nat × Nat :=
  match mode with
  | 0 => (raw, 0)
  | 1 => (lz4_compress raw, (lz4_compress raw).length)
  | 2 => (lz4_compress (deltaXor raw prev), (lz4_compress (deltaXor raw prev)).length)
  | 3 => (lz4_compress raw, (lz4_compress raw).length)
  | 4 => (lz4_compress (deltaXor raw prev), (lz4_compress (deltaXor raw prev)).length)
  | 5 => adaptiveChoose (speculative 5 prev raw) raw
  | 6 => adaptiveChoose (speculative 6 prev raw) raw
  | _ => (raw, 0)

/-! ## Packetizer -/

/-- Modelled from the spec: slice a stream into consecutive pieces of at
most mtu bytes (section 4.4). -/
def chunksOf (mtu : Nat) (l : List Nat) : List (List Nat) :=
  if hl : l = [] then []
  else if hm : mtu = 0 then [l]
  else l.take mtu :: chunksOf mtu (l.drop mtu)
termination_by l.length
decreasing_by
  have hpos : 0 < l.length := List.length_pos.mpr hl
  simp only [List.length_drop]
  omega

/-- Modelled from the spec: the packetizer attaches a chunk ordinal to every
slice; ordinals begin at zero and increment per chunk (section 4.4). -/
def packetize (mtu : Nat) (payload : List Nat) : List (Nat × List Nat) :=
  (chunksOf mtu payload).enum

/-! ## Modeline, raster solver and health -/

/-- Modeline record of the header; the pixel clock is in MHz. -/
structure Modeline where
  pixel_clock : ℚ
  h_active : Nat
  h_begin : Nat
  h_end : Nat
  h_total : Nat
  v_active : Nat
  v_begin : Nat
  v_end : Nat
  v_total : Nat
  interlaced : Nat
deriving DecidableEq

/-- Modelled from the spec: frame period in nanoseconds, the rounded value
of h total times v total times 1000 over the pixel clock (section 4.6). -/
def frameTimeModel (m : Modeline) : Nat :=
  (round ((m.h_total * m.v_total * 1000 : ℚ) / m.pixel_clock)).toNat

/-- Ceiling division on naturals, used by the vsync line solver so that the
FPGA arrives at the target line no earlier than the requested margin. -/
def ceilDiv (a b : Nat) : Nat := (a + b - 1) / b

/-! ## Connection state -/

/-- Modelled from the spec: the per-connection state of section 3.  The
projected line is the raster solver position reconstructed from the last
snapshot; the previous-frame buffer backs the delta modes. -/
structure Conn where
  lz4Mode : Nat
  mtu : Nat
  modeline : Option Modeline
  prevFrame : List Nat
  submitCount : Nat
  projected_line : Nat
  snapshot : Ack
deriving DecidableEq

/-- Modelled from the spec: frame period in nanoseconds from the current
modeline, zero when the handle has no modeline set. -/
def gmz_frame_time_ns : Option Conn → Nat
  | none => 0
  | some c =>
    match c.modeline with
    | none => 0
    | some m => frameTimeModel m

/-- Modelled from the spec: the vsync line solver of section 4.6.  The line
time is the frame period over v total; the target line is the ceiling of
the projected position plus the emulation, stream and margin times, in
line times, wrapped into the frame; without a modeline it returns the
sentinel 262. -/
def gmz_calc_vsync (conn : Option Conn) (margin_ns emulation_ns stream_ns : Nat) : Nat :=
  match conn with
  | none => 262
  | some c =>
    match c.modeline with
    | none => 262
    | some m =>
      ceilDiv (c.projected_line * (frameTimeModel m / m.v_total) +
        emulation_ns + stream_ns + margin_ns) (frameTimeModel m / m.v_total) % m.v_total

/-! ## ACK tracker -/

/-- Modelled from the spec: the ACK tracker updates the held snapshot only
when the incoming frame echo is at least the currently held one; a stale
ACK is discarded unchanged (section 4.5). -/
def ackUpdate (s a : Ack) : Ack :=
  if s.frame_echo ≤ a.frame_echo then a else s

/-! ## Submit -/

/-- Result of a submit: the integer return code, the connection after the
call, the lz4 size field, the transmitted payload and the datagrams. -/
structure SubmitOut where
  ret : Int
  conn : Option Conn
  lz4_size : Nat
  payload : List Nat
  datagrams : List (Nat × List Nat)

/-- Modelled from the spec: submit compresses according to the lz4 mode,
snapshots the raw (pre-XOR) bytes into the previous-frame buffer, advances
the monotonic submit counter, and packetizes the BLIT; a null handle or a
zero-length frame is an argument error (sections 4.3, 4.4 and 7). -/
def gmz_submit (conn : Option Conn) (data : List Nat) (frame fld vsync_line : Nat) :
    SubmitOut :=
  match conn with
  | none => ⟨-1, none, 0, [], []⟩
  | some c =>
    if data = [] then ⟨-1, some c, 0, [], []⟩
    else
      let pl := compressStage c.lz4Mode c.prevFrame data
      ⟨0, some { c with prevFrame := data, submitCount := c.submitCount + 1 },
        pl.2, pl.1,
        packetize c.mtu (encodeCmd (.blit frame vsync_line pl.2 fld pl.1))⟩

/-! ## wait_sync -/

/-- Modelled from the spec: wait_sync blocks up to the caller timeout on the
data socket.  The network is modelled as the list of ACKs that would
arrive, each tagged with its arrival time in milliseconds; the call
returns 0 on an ACK advancing the frame echo past the submit counter
within the timeout, 1 on timeout, and -1 on a null handle. -/
def gmz_wait_sync (conn : Option Conn) (timeout_ms : Nat)
    (events : List (Nat × Ack)) : Int :=
  match conn with
  | none => -1
  | some c =>
    if (events.filter (fun e => decide (e.1 ≤ timeout_ms))).any
        (fun e => decide (c.submitCount ≤ e.2.frame_echo)) then 0 else 1

/-! ## Input receiver -/

/-- Joystick state of the header (frame counter, button bitfields, dedup
order, analog axes). -/
structure JoyState where
  frame : Nat
  joy1 : Nat
  joy2 : Nat
  order : Nat
  j1_lx : Int
  j1_ly : Int
  j1_rx : Int
  j1_ry : Int
  j2_lx : Int
  j2_ly : Int
  j2_rx : Int
  j2_ry : Int
deriving DecidableEq, Repr

/-- PS/2 keyboard and mouse state of the header. -/
structure Ps2State where
  frame : Nat
  order : Nat
  mouse_btns : Nat
  mouse_x : Nat
  mouse_y : Nat
  mouse_z : Nat
  keys : List Nat
deriving DecidableEq, Repr

def zeroJoy : JoyState := ⟨0, 0, 0, 0, 0, 0, 0, 0, 0, 0, 0, 0⟩

def zeroPs2 : Ps2State := ⟨0, 0, 0, 0, 0, 0, List.replicate 32 0⟩

/-- Modelled from the spec: the dedup rule of section 4.8.  A packet key is
newer when the frame difference, taken modulo 2 to the 32, is a positive
signed 32-bit value, or when the frames agree and the order is strictly
larger. -/
def keyNewer (sf so f o : Nat) : Bool :=
  if (f % 2 ^ 32 + 2 ^ 32 - sf % 2 ^ 32) % 2 ^ 32 = 0 then decide (so < o)
  else decide ((f % 2 ^ 32 + 2 ^ 32 - sf % 2 ^ 32) % 2 ^ 32 < 2 ^ 31)

/-- Modelled from the spec: the input handle owns the latest joystick and
PS/2 states with their dedup keys. -/
structure InputHandle where
  joy : JoyState
  ps2 : Ps2State
deriving DecidableEq, Repr

/-- Modelled from the spec: accept an incoming joystick packet only when its
key is newer than the stored one, drop it otherwise. -/
def recvJoy (h : InputHandle) (p : JoyState) : InputHandle :=
  if keyNewer h.joy.frame h.joy.order p.frame p.order then { h with joy := p } else h

/-- Modelled from the spec: draining the input socket folds the pending
joystick packets through the dedup filter. -/
def pollJoy (h : InputHandle) (ps : List JoyState) : InputHandle :=
  ps.foldl recvJoy h

/-- Modelled from the spec: accept an incoming PS/2 packet only when its
key is newer than the stored one, drop it otherwise (section 4.8 applies
the same dedup rule to both packet kinds). -/
def recvPs2 (h : InputHandle) (p : Ps2State) : InputHandle :=
  if keyNewer h.ps2.frame h.ps2.order p.frame p.order then { h with ps2 := p } else h

/-- Modelled from the spec: draining the input socket folds the pending
PS/2 packets through the dedup filter. -/
def pollPs2 (h : InputHandle) (ps : List Ps2State) : InputHandle :=
  ps.foldl recvPs2 h

/-- Modelled from the spec: read the latest joystick state; a null handle
yields the zeroed state. -/
def gmz_input_joy : Option InputHandle → JoyState
  | none => zeroJoy
  | some h => h.joy

/-- Modelled from the spec: read the latest PS/2 state; a null handle yields
the zeroed state. -/
def gmz_input_ps2 : Option InputHandle → Ps2State
  | none => zeroPs2
  | some h => h.ps2

/-- Modelled from the spec: closing the input handle frees it; the returned
number counts the sockets closed, so a null handle is a no-op. -/
def gmz_input_close : Option InputHandle → Option InputHandle × Nat
  | none => (none, 0)
  | some _ => (none, 1)

/-- Modelled from the spec: disconnect sends CMD_CLOSE and frees the
connection; on a null handle nothing is sent and nothing changes. -/
def gmz_disconnect : Option Conn → Option Conn × List Cmd
  | none => (none, [])
  | some _ => (none, [Cmd.close])

/-! ## Concrete fixtures from the spec scenarios -/

/-- The 640x480 at 25.175 MHz modeline of spec scenario 1. -/
def ntsc : Modeline :=
  { pixel_clock := 25.175, h_active := 640, h_begin := 656, h_end := 752,
    h_total := 800, v_active := 480, v_begin := 490, v_end := 492,
    v_total := 525, interlaced := 0 }

def ack0 : Ack := ⟨0, 0, 0, 0, 0, 0, 0, 0, 0, 0, 0, 0⟩

/-- A freshly connected handle carrying the scenario 1 modeline. -/
def connNTSC : Conn :=
  { lz4Mode := 0, mtu := 1472, modeline := some ntsc, prevFrame := [],
    submitCount := 0, projected_line := 0, snapshot := ack0 }

/-- The same handle in adaptive lz4 mode. -/
def conn5 : Conn := { connNTSC with lz4Mode := 5 }

/-- A handle before set_modeline. -/
def connBare : Conn := { connNTSC with modeline := none }

def ackEcho5 : Ack := { ack0 with frame_echo := 5 }

def ackEcho3 : Ack := { ack0 with frame_echo := 3 }

/-- A concrete well-formed 41-byte ACK datagram (frame 2, frame echo 1,
vcount 150, vcount echo 400, ready, synced and audio bits set). -/
def ackBytes41 : List Nat :=
  [2, 0, 0, 0, 1, 0, 0, 0, 150, 0, 144, 1, 1, 0, 1, 0, 0, 0, 1, 0,
   0, 0, 0, 0, 0, 0, 0, 0, 0, 0, 0, 0, 0, 0, 0, 0, 0, 0, 0, 0, 0]

def handle0 : InputHandle := ⟨zeroJoy, zeroPs2⟩

/-- Joystick packet of spec scenario 6: frame 7, order 2, joy1 0x0011. -/
def joyA : JoyState := ⟨7, 0x0011, 0, 2, 0, 0, 0, 0, 0, 0, 0, 0⟩

/-- Joystick packet of spec scenario 6: frame 7, order 1, joy1 0x00FF. -/
def joyB : JoyState := ⟨7, 0x00FF, 0, 1, 0, 0, 0, 0, 0, 0, 0, 0⟩

/-- An input handle that has already accepted the first scenario packet. -/
def handleA : InputHandle := ⟨joyA, zeroPs2⟩

/-- PS/2 packet with key (frame 7, order 2). -/
def ps2A : Ps2State := ⟨7, 2, 1, 0, 0, 0, List.replicate 32 0⟩

/-- PS/2 packet with the older key (frame 7, order 1). -/
def ps2B : Ps2State := ⟨7, 1, 4, 0, 0, 0, List.replicate 32 0⟩

/-- An input handle that has already accepted the newer PS/2 packet. -/
def handleP : InputHandle := ⟨zeroJoy, ps2A⟩

/-! ## Helper lemmas -/

theorem frameTime_ntsc : frameTimeModel ntsc = 16683217 := by
  simp only [frameTimeModel, ntsc]
  norm_num [round_eq]
  rfl

theorem foldl_ackUpdate_mono (acks : List Ack) (s : Ack) :
    s.frame_echo ≤ (acks.foldl ackUpdate s).frame_echo := by
  induction acks generalizing s with
  | nil => simp
  | cons a rest ih =>
    refine le_trans ?_ (ih (ackUpdate s a))
    unfold ackUpdate
    split
    · assumption
    · exact le_refl _

theorem adaptiveChoose_raw (cdata raw : List Nat) (h : 15 * raw.length ≤ 16 * cdata.length) :
    adaptiveChoose cdata raw = (raw, 0) := by
  simp [adaptiveChoose, h]

theorem adaptiveChoose_comp (cdata raw : List Nat) (h : 16 * cdata.length < 15 * raw.length) :
    adaptiveChoose cdata raw = (cdata, cdata.length) := by
  rw [adaptiveChoose, if_neg (by omega)]

theorem speculative_small_length (mode : Nat) (prev data : List Nat)
    (h : data.length ≤ 16) : (speculative mode prev data).length = data.length + 1 := by
  have hd : (deltaXor data prev).length = data.length := deltaXor_length data prev
  by_cases hm : mode = 6 <;> simp [speculative, lz4_compress, hm, h, hd]

theorem chunksOf_length_le (mtu : Nat) (hm : 0 < mtu) :
    ∀ (l : List Nat), ∀ ch ∈ chunksOf mtu l, ch.length ≤ mtu := by
  have main : ∀ (n : Nat) (l : List Nat), l.length ≤ n →
      ∀ ch ∈ chunksOf mtu l, ch.length ≤ mtu := by
    intro n
    induction n with
    | zero =>
      intro l hl ch hch
      have hnil : l = [] := List.eq_nil_of_length_eq_zero (by omega)
      subst hnil
      simp [chunksOf] at hch
    | succ n ih =>
      intro l hl ch hch
      by_cases hnil : l = []
      · subst hnil
        simp [chunksOf] at hch
      · rw [chunksOf] at hch
        rw [dif_neg hnil, dif_neg (by omega : ¬ mtu = 0)] at hch
        rcases List.mem_cons.mp hch with h1 | h2
        · subst h1
          simp only [List.length_take]
          omega
        · have hlp : 0 < l.length := List.length_pos.mpr hnil
          exact ih (l.drop mtu) (by simp only [List.length_drop]; omega) ch h2
  exact fun l => main l.length l le_rfl

/-! ## Claim theorems -/

/-- Claim C1: after every successful submit on a connected handle, in every
lz4 mode from OFF through ADAPTIVE_DELTA, the connection previous-frame
buffer holds exactly the raw (uncompressed, pre-XOR) input bytes of that
submit, regardless of which path transmitted. -/
theorem submit_updates_prev_frame (c : Conn) (data : List Nat)
    (frame fld vsync_line : Nat) (hmode : c.lz4Mode ≤ 6) (hdata : data ≠ []) :
    ∃ c2, (gmz_submit (some c) data frame fld vsync_line).conn = some c2 ∧
      c2.prevFrame = data := by
  refine ⟨{ c with prevFrame := data, submitCount := c.submitCount + 1 }, ?_, rfl⟩
  simp [gmz_submit, hdata]

theorem submit_updates_prev_frame_witness :
    ∃ c2, (gmz_submit (some connNTSC) [1, 2, 3] 1 0 100).conn = some c2 ∧
      c2.prevFrame = [1, 2, 3] :=
  submit_updates_prev_frame connNTSC [1, 2, 3] 1 0 100 (by decide) (by decide)

/-- Claim C2: the ACK tracker frame echo is non-decreasing: an update never
lowers it, an ACK whose frame echo is strictly smaller than the held one is
discarded leaving the snapshot unchanged, and any fold of received ACKs
over the snapshot keeps the frame echo at least where it started. -/
theorem ack_frame_echo_monotone :
    (∀ s a : Ack, s.frame_echo ≤ (ackUpdate s a).frame_echo) ∧
    (∀ s a : Ack, a.frame_echo < s.frame_echo → ackUpdate s a = s) ∧
    (∀ (acks : List Ack) (s : Ack), s.frame_echo ≤ (acks.foldl ackUpdate s).frame_echo) := by
  refine ⟨fun s a => ?_, fun s a h => ?_, fun acks s => foldl_ackUpdate_mono acks s⟩
  · unfold ackUpdate
    split
    · assumption
    · exact le_refl _
  · unfold ackUpdate
    rw [if_neg (by omega)]

theorem ack_frame_echo_monotone_witness : ackUpdate ackEcho5 ackEcho3 = ackEcho5 :=
  ack_frame_echo_monotone.2.1 ackEcho5 ackEcho3 (by decide)

/-- Claim C3 (amended): with a modeline set, frame_time_ns returns the
rounded value of h total times v total times 1000 over the pixel clock;
for the 800 by 525 modeline at 25.175 MHz this is 16683217 nanoseconds
(not the 16683746 the claim states). -/
theorem frame_time_formula (c : Conn) (m : Modeline) (h : c.modeline = some m) :
    gmz_frame_time_ns (some c) =
      (round ((m.h_total * m.v_total * 1000 : ℚ) / m.pixel_clock)).toNat ∧
    gmz_frame_time_ns (some connNTSC) = 16683217 := by
  constructor
  · simp [gmz_frame_time_ns, h, frameTimeModel]
  · have h2 : connNTSC.modeline = some ntsc := rfl
    simp [gmz_frame_time_ns, h2, frameTime_ntsc]

theorem frame_time_formula_witness :
    gmz_frame_time_ns (some connNTSC) =
      (round ((ntsc.h_total * ntsc.v_total * 1000 : ℚ) / ntsc.pixel_clock)).toNat ∧
    gmz_frame_time_ns (some connNTSC) = 16683217 :=
  frame_time_formula connNTSC ntsc rfl

/-- Claim C3 counterexample: on the modeline with pixel clock 25.175 MHz,
h total 800 and v total 525, frame_time_ns does not return 16683746; the
round of 800 times 525 times 1000 over 25.175 is 16683217. -/
theorem frame_time_claim_cx : gmz_frame_time_ns (some connNTSC) ≠ 16683746 := by
  have h2 : connNTSC.modeline = some ntsc := rfl
  simp [gmz_frame_time_ns, h2, frameTime_ntsc]

/-- Claim C4: with a modeline set, calc_vsync returns the ceiling of the
projected raster position plus emulation, stream and margin times divided
by the line time, wrapped modulo v total; on the 800 by 525 at 25.175 MHz
modeline with projected line 0, emulation 8 ms, stream 2 ms and margin
2 ms it returns 378, and with no modeline set it returns the sentinel
262. -/
theorem calc_vsync_formula (c : Conn) (m : Modeline) (h : c.modeline = some m)
    (margin emu stream : Nat) :
    gmz_calc_vsync (some c) margin emu stream =
      ceilDiv (c.projected_line * (frameTimeModel m / m.v_total) + emu + stream + margin)
        (frameTimeModel m / m.v_total) % m.v_total ∧
    gmz_calc_vsync (some connNTSC) 2000000 8000000 2000000 = 378 ∧
    (∀ c2 : Conn, c2.modeline = none → gmz_calc_vsync (some c2) margin emu stream = 262) := by
  refine ⟨by simp [gmz_calc_vsync, h], ?_, fun c2 h2 => by simp [gmz_calc_vsync, h2]⟩
  have h2 : connNTSC.modeline = some ntsc := rfl
  simp only [gmz_calc_vsync, h2, frameTime_ntsc]
  decide

theorem calc_vsync_formula_witness :
    gmz_calc_vsync (some connNTSC) 2000000 8000000 2000000 = 378 :=
  (calc_vsync_formula connNTSC ntsc rfl 2000000 8000000 2000000).2.1

/-- Claim C5: in the adaptive modes submit transmits the raw payload with
lz4 size 0 exactly when the speculative compressed size is at least
fifteen sixteenths of the raw size, and the compressed payload with its
byte count otherwise; in particular every adaptive submit of at most 16
bytes goes out uncompressed. -/
theorem adaptive_submit (c : Conn) (data : List Nat) (frame fld v : Nat)
    (hmode : c.lz4Mode = 5 ∨ c.lz4Mode = 6) (hdata : data ≠ []) :
    (15 * data.length ≤ 16 * (speculative c.lz4Mode c.prevFrame data).length →
      (gmz_submit (some c) data frame fld v).payload = data ∧
      (gmz_submit (some c) data frame fld v).lz4_size = 0) ∧
    (16 * (speculative c.lz4Mode c.prevFrame data).length < 15 * data.length →
      (gmz_submit (some c) data frame fld v).payload =
        speculative c.lz4Mode c.prevFrame data ∧
      (gmz_submit (some c) data frame fld v).lz4_size =
        (speculative c.lz4Mode c.prevFrame data).length) ∧
    (data.length ≤ 16 →
      (gmz_submit (some c) data frame fld v).payload = data ∧
      (gmz_submit (some c) data frame fld v).lz4_size = 0) := by
  have hout : ∀ mode, c.lz4Mode = mode → mode = 5 ∨ mode = 6 →
      (gmz_submit (some c) data frame fld v).payload =
        (adaptiveChoose (speculative c.lz4Mode c.prevFrame data) data).1 ∧
      (gmz_submit (some c) data frame fld v).lz4_size =
        (adaptiveChoose (speculative c.lz4Mode c.prevFrame data) data).2 := by
    intro mode hcm hm
    rcases hm with hm | hm <;> subst hm <;>
      simp [gmz_submit, hdata, compressStage, hcm]
  obtain ⟨hp, hs⟩ := hout c.lz4Mode rfl hmode
  refine ⟨fun h => ?_, fun h => ?_, fun h => ?_⟩
  · rw [hp, hs, adaptiveChoose_raw _ _ h]
    exact ⟨rfl, rfl⟩
  · rw [hp, hs, adaptiveChoose_comp _ _ h]
    exact ⟨rfl, rfl⟩
  · have hlen := speculative_small_length c.lz4Mode c.prevFrame data h
    have hle : 15 * data.length ≤ 16 * (speculative c.lz4Mode c.prevFrame data).length := by
      rw [hlen]; omega
    rw [hp, hs, adaptiveChoose_raw _ _ hle]
    exact ⟨rfl, rfl⟩

theorem adaptive_submit_witness :
    (gmz_submit (some conn5) [1, 2, 3] 1 0 100).payload = [1, 2, 3] ∧
    (gmz_submit (some conn5) [1, 2, 3] 1 0 100).lz4_size = 0 :=
  (adaptive_submit conn5 [1, 2, 3] 1 0 100 (Or.inl rfl) (by decide)).2.2 (by decide)

/-- Claim C6: every datagram the packetizer produces is at most the
configured MTU; a payload of exactly MTU bytes travels as a single chunk,
and a payload of MTU plus one bytes travels as exactly two chunks with
ordinals 0 and 1. -/
theorem packetize_bounds (mtu : Nat) (payload : List Nat) (h : 0 < mtu) :
    (∀ ch ∈ packetize mtu payload, ch.2.length ≤ mtu) ∧
    (payload.length = mtu → packetize mtu payload = [(0, payload)]) ∧
    (payload.length = mtu + 1 →
      packetize mtu payload = [(0, payload.take mtu), (1, payload.drop mtu)]) := by
  refine ⟨?_, ?_, ?_⟩
  · intro ch hch
    exact chunksOf_length_le mtu h payload ch.2 (List.snd_mem_of_mem_enum hch)
  · intro hp
    have hnil : payload ≠ [] := by
      intro hq
      rw [hq] at hp
      simp at hp
      omega
    rw [packetize, chunksOf, dif_neg hnil, dif_neg (by omega : ¬ mtu = 0)]
    rw [← hp, List.take_length, List.drop_length]
    simp [chunksOf, List.enum]
  · intro hp
    have hnil : payload ≠ [] := by
      intro hq
      rw [hq] at hp
      simp at hp
    have hdrop : (payload.drop mtu).length = 1 := by
      simp [List.length_drop, hp]
    have hdnil : payload.drop mtu ≠ [] := by
      intro hq
      rw [hq] at hdrop
      simp at hdrop
    rw [packetize, chunksOf, dif_neg hnil, dif_neg (by omega : ¬ mtu = 0)]
    rw [chunksOf, dif_neg hdnil, dif_neg (by omega : ¬ mtu = 0)]
    have ht : (payload.drop mtu).take mtu = payload.drop mtu :=
      List.take_of_length_le (by omega)
    have hd : (payload.drop mtu).drop mtu = [] :=
      List.drop_eq_nil_of_le (by omega)
    rw [ht, hd]
    simp [chunksOf, List.enum]

theorem packetize_bounds_witness :
    packetize 3 [9, 9, 9, 9] = [(0, [9, 9, 9]), (1, [9])] := by
  have h := (packetize_bounds 3 [9, 9, 9, 9] (by decide)).2.2 (by decide)
  simpa using h

/-- Claim C7: the wire codec round-trips: re-encoding the decode of any
well-formed 41-byte ACK datagram reproduces the datagram, and decoding the
encoding of any in-range INIT, SWITCHRES, BLIT, AUDIO or CLOSE command
gives the command back. -/
theorem wire_codec_round_trip :
    (∀ l : List Nat, wellFormedAck l → (decodeAck l).map encodeAck = some l) ∧
    (∀ c : Cmd, wfCmd c = true → decodeCmd (encodeCmd c) = some c) :=
  ⟨encodeAck_decodeAck, decodeCmd_encodeCmd⟩

theorem wire_codec_round_trip_witness :
    (decodeAck ackBytes41).map encodeAck = some ackBytes41 ∧
    decodeCmd (encodeCmd (Cmd.init 1472 24 3 2 0)) = some (Cmd.init 1472 24 3 2 0) :=
  ⟨wire_codec_round_trip.1 ackBytes41 (by decide),
    wire_codec_round_trip.2 (Cmd.init 1472 24 3 2 0) (by decide)⟩

/-- Claim C8: the input receiver accepts an incoming joystick or PS/2
packet exactly when its (frame, order) key lexicographically exceeds the
stored key, the frame compared through its positive signed 32-bit wrapped
difference, and drops it otherwise; receiving (frame 7, order 2, joy1
0x0011) and then (frame 7, order 1, joy1 0x00FF) leaves joy1 at 0x0011. -/
theorem input_dedup (h : InputHandle) (p : JoyState) (q : Ps2State) :
    (keyNewer h.joy.frame h.joy.order p.frame p.order = true →
      recvJoy h p = { h with joy := p }) ∧
    (keyNewer h.joy.frame h.joy.order p.frame p.order = false → recvJoy h p = h) ∧
    (keyNewer h.ps2.frame h.ps2.order q.frame q.order = true →
      recvPs2 h q = { h with ps2 := q }) ∧
    (keyNewer h.ps2.frame h.ps2.order q.frame q.order = false → recvPs2 h q = h) ∧
    (∀ sf so f o : Nat, keyNewer sf so f o = true ↔
      ((((f : ℤ) - sf) % 2 ^ 32 = 0 ∧ so < o) ∨
       (0 < ((f : ℤ) - sf) % 2 ^ 32 ∧ ((f : ℤ) - sf) % 2 ^ 32 < 2 ^ 31))) ∧
    (gmz_input_joy (some (pollJoy handle0 [joyA, joyB]))).joy1 = 0x0011 := by
  refine ⟨fun hk => ?_, fun hk => ?_, fun hk => ?_, fun hk => ?_, ?_, by decide⟩
  · simp [recvJoy, hk]
  · simp [recvJoy, hk]
  · simp [recvPs2, hk]
  · simp [recvPs2, hk]
  · intro sf so f o
    unfold keyNewer
    split_ifs with hd <;> simp only [decide_eq_true_eq] <;> omega

theorem input_dedup_witness :
    recvJoy handleA joyB = handleA ∧ recvPs2 handleP ps2B = handleP :=
  ⟨(input_dedup handleA joyB ps2B).2.1 (by decide),
   (input_dedup handleP joyB ps2B).2.2.2.1 (by decide)⟩

/-- Claim C9: wait_sync returns exactly one of -1, 0 and 1: -1 exactly on a
null handle, 0 exactly when some ACK arriving within the timeout advances
the frame echo past the submit counter, and 1 exactly when no such ACK
arrives before the timeout. -/
theorem wait_sync_trichotomy (conn : Option Conn) (t : Nat)
    (events : List (Nat × Ack)) :
    (gmz_wait_sync conn t events = -1 ∨ gmz_wait_sync conn t events = 0 ∨
      gmz_wait_sync conn t events = 1) ∧
    (gmz_wait_sync conn t events = -1 ↔ conn = none) ∧
    (∀ c, conn = some c →
      ((gmz_wait_sync conn t events = 0 ↔
        ∃ e ∈ events, e.1 ≤ t ∧ c.submitCount ≤ e.2.frame_echo) ∧
       (gmz_wait_sync conn t events = 1 ↔
        ¬ ∃ e ∈ events, e.1 ≤ t ∧ c.submitCount ≤ e.2.frame_echo))) := by
  cases conn with
  | none =>
    refine ⟨Or.inl rfl, by simp [gmz_wait_sync], fun c hc => by simp at hc⟩
  | some c =>
    have hiff : ((events.filter (fun e => decide (e.1 ≤ t))).any
        (fun e => decide (c.submitCount ≤ e.2.frame_echo)) = true) ↔
        ∃ e ∈ events, e.1 ≤ t ∧ c.submitCount ≤ e.2.frame_echo := by
      simp [List.any_eq_true, List.mem_filter, and_assoc]
    by_cases hb : (events.filter (fun e => decide (e.1 ≤ t))).any
        (fun e => decide (c.submitCount ≤ e.2.frame_echo)) = true
    · refine ⟨Or.inr (Or.inl (by simp [gmz_wait_sync, hb])), ?_, ?_⟩
      · simp [gmz_wait_sync, hb]
      · intro c2 hc2
        obtain rfl : c = c2 := Option.some.inj hc2
        constructor
        · simp [gmz_wait_sync, hb, hiff.mp hb]
        · simp [gmz_wait_sync, hb, hiff.mp hb]
    · refine ⟨Or.inr (Or.inr (by simp [gmz_wait_sync, hb])), ?_, ?_⟩
      · simp [gmz_wait_sync, hb]
      · intro c2 hc2
        obtain rfl : c = c2 := Option.some.inj hc2
        have hne := hiff.not.mp hb
        constructor
        · simp [gmz_wait_sync, hb, hne]
        · simp [gmz_wait_sync, hb, hne]

theorem wait_sync_trichotomy_witness : gmz_wait_sync none 5 [] = -1 :=
  (wait_sync_trichotomy none 5 []).2.1.mpr rfl

/-- Claim C10: disconnect and input_close on a null handle are safe no-ops
(nothing sent, nothing closed, no state), and input_joy and input_ps2 on a
null handle return fully zeroed states. -/
theorem null_handle_safety :
    gmz_disconnect none = (none, []) ∧
    gmz_input_close none = (none, 0) ∧
    gmz_input_joy none = ⟨0, 0, 0, 0, 0, 0, 0, 0, 0, 0, 0, 0⟩ ∧
    gmz_input_ps2 none = ⟨0, 0, 0, 0, 0, 0, List.replicate 32 0⟩ :=
  ⟨rfl, rfl, rfl, rfl⟩

end GroovyMister
